import Mathlib

/-!
Verification of the pg_catalog snapshot-materialization layer of
datafusion-postgres (src/datafusion-postgres/src/pg_catalog.rs).

The embedding models the catalog interface the builders read
(CatalogProviderList, CatalogProvider, SchemaProvider, TableProvider),
the row types the builders synthesize, and the get_data traversal of
each dynamic relation builder (pg_namespace, pg_class, pg_attribute,
pg_database), plus the current_schemas scalar function and the
pg_catalog schema-provider table lookup.

Machine integers (i32, i16) are modelled as Int: all oid arithmetic in
the source starts at 10000 or 16384 and increments by one per visited
object, far from the i32 range for any input considered here.
Floating-point columns (reltuples) are carried as Float but never
inspected by any theorem.  Arrow RecordBatch assembly is not modelled:
the arrays are built columnwise from the same per-row pushes, so a
relation is modelled as the list of its rows.
-/

/-- Arrow native column types, covering exactly the constructors that
pg_catalog.rs pattern-matches on (everything else falls into the
wildcard arm, represented by the other constructor). -/
inductive ArrowDataType where
  | int8
  | int16
  | int32
  | int64
  | float32
  | float64
  | boolean
  | date32
  | date64
  | timestamp
  | utf8
  | largeUtf8
  | binary
  | largeBinary
  | list (elem : ArrowDataType)
  | largeList (elem : ArrowDataType)
  | fixedSizeList (elem : ArrowDataType) (size : Nat)
  | other (name : String)
deriving DecidableEq, Repr

/-- An Arrow schema field: name, native data type, nullability. -/
structure ArrowField where
  name : String
  dataType : ArrowDataType
  nullable : Bool
deriving DecidableEq, Repr

/-- A resolved table: table.schema().fields() is its ordered column list. -/
structure TableProvider where
  fields : List ArrowField
deriving DecidableEq, Repr

/-- A user schema as the builders read it: an ordered listing of table
names and a by-name lookup.  The lookup mirrors the Rust signature
fn table(name) -> Result of Option of TableProvider: it can error, or
report the table as absent, or resolve it. -/
structure UserSchemaProvider where
  tableNames : List String
  table : String → Except String (Option TableProvider)

/-- A catalog: ordered schema-name listing and by-name schema lookup
(returning none when the schema has vanished). -/
structure CatalogProvider where
  schemaNames : List String
  schema : String → Option UserSchemaProvider

/-- The catalog list injected into every builder: ordered catalog-name
listing and by-name catalog lookup. -/
structure CatalogProviderList where
  catalogNames : List String
  catalog : String → Option CatalogProvider

/-- A row of the pg_namespace relation. -/
structure NamespaceRow where
  oid : Int
  nspname : String
  nspowner : Int
  nspacl : Option String
  options : Option String
deriving DecidableEq, Repr

/-- The three fixed system namespace rows PgNamespaceTable.get_data
pushes before the dynamic walk: pg_catalog (11), public (2200),
information_schema (12), each owned by user 10. -/
def fixedNamespaceRows : List NamespaceRow :=
  [ { oid := 11, nspname := "pg_catalog", nspowner := 10, nspacl := none, options := none },
    { oid := 2200, nspname := "public", nspowner := 10, nspacl := none, options := none },
    { oid := 12, nspname := "information_schema", nspowner := 10, nspacl := none, options := none } ]

/-- True for a schema name PgNamespaceTable.get_data skips: the three
names already added as fixed system schemas. -/
def isSystemSchemaName (s : String) : Bool :=
  s = "pg_catalog" || s = "public" || s = "information_schema"

/-- Inner loop of PgNamespaceTable.get_data over the schema names of
one catalog: skip system-named schemas (consuming no oid), otherwise
emit a row carrying the next counter value and advance the counter. -/
def namespaceSchemasLoop (schemaNames : List String) (nextOid : Int) :
    List NamespaceRow × Int :=
  match schemaNames with
  | [] => ([], nextOid)
  | s :: rest =>
    if isSystemSchemaName s then
      namespaceSchemasLoop rest nextOid
    else
      let r := namespaceSchemasLoop rest (nextOid + 1)
      ({ oid := nextOid, nspname := s, nspowner := 10, nspacl := none, options := none } :: r.1,
        r.2)

/-- Outer loop of PgNamespaceTable.get_data over catalog names: a
catalog whose lookup returns none is skipped; otherwise its schema
names are walked with the shared counter. -/
def namespaceCatalogsLoop (cl : CatalogProviderList) (catalogNames : List String)
    (nextOid : Int) : List NamespaceRow × Int :=
  match catalogNames with
  | [] => ([], nextOid)
  | c :: rest =>
    match cl.catalog c with
    | none => namespaceCatalogsLoop cl rest nextOid
    | some cat =>
      let r1 := namespaceSchemasLoop cat.schemaNames nextOid
      let r2 := namespaceCatalogsLoop cl rest r1.2
      (r1.1 ++ r2.1, r2.2)

/-- PgNamespaceTable.get_data: the three fixed system rows followed by
the dynamic walk seeded at oid 10000. -/
def pgNamespaceGetData (cl : CatalogProviderList) : List NamespaceRow :=
  fixedNamespaceRows ++ (namespaceCatalogsLoop cl cl.catalogNames 10000).1

/-- A row of the pg_database relation. -/
structure DatabaseRow where
  oid : Int
  datname : String
  datdba : Int
  encoding : Int
  datcollate : String
  datctype : String
  datistemplate : Bool
  datallowconn : Bool
  datconnlimit : Int
  datlastsysoid : Int
  datfrozenxid : Int
  datminmxid : Int
  dattablespace : Int
  datacl : Option String
deriving DecidableEq, Repr

/-- The constant-field database row PgDatabaseTable.get_data pushes for
a given oid and name (both the per-catalog rows and the synthetic
postgres row use these same constants). -/
def mkDatabaseRow (oid : Int) (name : String) : DatabaseRow :=
  { oid := oid
    datname := name
    datdba := 10
    encoding := 6
    datcollate := "en_US.UTF-8"
    datctype := "en_US.UTF-8"
    datistemplate := false
    datallowconn := true
    datconnlimit := -1
    datlastsysoid := 100000
    datfrozenxid := 1
    datminmxid := 1
    dattablespace := 1663
    datacl := none }

/-- Loop of PgDatabaseTable.get_data over catalog names: one row per
catalog, oids from the counter in enumeration order. -/
def databaseCatalogsLoop (catalogNames : List String) (nextOid : Int) :
    List DatabaseRow × Int :=
  match catalogNames with
  | [] => ([], nextOid)
  | c :: rest =>
    let r := databaseCatalogsLoop rest (nextOid + 1)
    (mkDatabaseRow nextOid c :: r.1, r.2)

/-- PgDatabaseTable.get_data: counter seeded at 16384; one row per
catalog; when no collected name equals postgres, one synthetic postgres
row is appended carrying the current counter value. -/
def pgDatabaseGetData (cl : CatalogProviderList) : List DatabaseRow :=
  let r := databaseCatalogsLoop cl.catalogNames 16384
  if (r.1.map (fun row => row.datname)).contains "postgres" then r.1
  else r.1 ++ [mkDatabaseRow r.2 "postgres"]

/-- The current_schemas scalar function: a singleton public list, with
information_schema and pg_catalog appended when the argument is true. -/
def currentSchemas (includeImplicit : Bool) : List String :=
  let values := ["public"]
  if includeImplicit then values ++ ["information_schema", "pg_catalog"] else values

example : currentSchemas false = ["public"] := by decide
example : currentSchemas true = ["public", "information_schema", "pg_catalog"] := by decide

/-- A row of the pg_class relation (all columns pushed by
PgClassTable.get_data). -/
structure ClassRow where
  oid : Int
  relname : String
  relnamespace : Int
  reltype : Int
  reloftype : Option Int
  relowner : Int
  relam : Int
  relfilenode : Int
  reltablespace : Int
  relpages : Int
  reltuples : Float
  relallvisible : Int
  reltoastrelid : Int
  relhasindex : Bool
  relisshared : Bool
  relpersistence : String
  relkind : String
  relnatts : Int
  relchecks : Int
  relhasrules : Bool
  relhastriggers : Bool
  relhassubclass : Bool
  relrowsecurity : Bool
  relforcerowsecurity : Bool
  relispopulated : Bool
  relreplident : String
  relispartition : Bool
  relrewrite : Option Int
  relfrozenxid : Int
  relminmxid : Int
deriving Repr

/-- The table entry PgClassTable.get_data pushes for one resolved
table: relkind fixed to r, relnatts the column count, statistics and
flags fixed placeholder values, filenode reusing the table oid. -/
def mkClassRow (tableOid : Int) (tableName : String) (schemaOid : Int)
    (table : TableProvider) : ClassRow :=
  { oid := tableOid
    relname := tableName
    relnamespace := schemaOid
    reltype := 0
    reloftype := none
    relowner := 0
    relam := 0
    relfilenode := tableOid
    reltablespace := 0
    relpages := 1
    reltuples := 0.0
    relallvisible := 0
    reltoastrelid := 0
    relhasindex := false
    relisshared := false
    relpersistence := "p"
    relkind := "r"
    relnatts := (table.fields.length : Int)
    relchecks := 0
    relhasrules := false
    relhastriggers := false
    relhassubclass := false
    relrowsecurity := false
    relforcerowsecurity := false
    relispopulated := true
    relreplident := "d"
    relispartition := false
    relrewrite := none
    relfrozenxid := 0
    relminmxid := 0 }

/-- What the pg_class walk records for each resolved table: the oid of
its schema, the oid consumed for the table itself, its listed name and
its resolved provider. -/
structure ClassEntry where
  schemaOid : Int
  tableOid : Int
  tableName : String
  table : TableProvider
deriving DecidableEq, Repr

/-- Innermost loop of PgClassTable.get_data over the table names of one
schema: each listed name consumes one oid before the lookup; an
erroring lookup aborts the whole walk; a lookup returning none keeps
the consumed oid but emits nothing. -/
def classTablesLoop (schemaOid : Int) (sp : UserSchemaProvider)
    (tableNames : List String) (nextOid : Int) :
    Except String (List ClassEntry × Int) :=
  match tableNames with
  | [] => .ok ([], nextOid)
  | t :: rest =>
    let tableOid := nextOid
    match sp.table t with
    | .error e => .error e
    | .ok none => classTablesLoop schemaOid sp rest (tableOid + 1)
    | .ok (some tbl) =>
      match classTablesLoop schemaOid sp rest (tableOid + 1) with
      | .error e => .error e
      | .ok r =>
        .ok ({ schemaOid := schemaOid, tableOid := tableOid,
               tableName := t, table := tbl } :: r.1, r.2)

/-- Middle loop of PgClassTable.get_data over the schema names of one
catalog: a schema whose lookup returns none is skipped without
consuming an oid; a resolved schema consumes one oid and then walks its
tables. -/
def classSchemasLoop (cat : CatalogProvider) (schemaNames : List String)
    (nextOid : Int) : Except String (List ClassEntry × Int) :=
  match schemaNames with
  | [] => .ok ([], nextOid)
  | s :: rest =>
    match cat.schema s with
    | none => classSchemasLoop cat rest nextOid
    | some sp =>
      let schemaOid := nextOid
      match classTablesLoop schemaOid sp sp.tableNames (schemaOid + 1) with
      | .error e => .error e
      | .ok r1 =>
        match classSchemasLoop cat rest r1.2 with
        | .error e => .error e
        | .ok r2 => .ok (r1.1 ++ r2.1, r2.2)

/-- Outer loop of PgClassTable.get_data over catalog names: a catalog
whose lookup returns none is skipped. -/
def classCatalogsLoop (cl : CatalogProviderList) (catalogNames : List String)
    (nextOid : Int) : Except String (List ClassEntry × Int) :=
  match catalogNames with
  | [] => .ok ([], nextOid)
  | c :: rest =>
    match cl.catalog c with
    | none => classCatalogsLoop cl rest nextOid
    | some cat =>
      match classSchemasLoop cat cat.schemaNames nextOid with
      | .error e => .error e
      | .ok r1 =>
        match classCatalogsLoop cl rest r1.2 with
        | .error e => .error e
        | .ok r2 => .ok (r1.1 ++ r2.1, r2.2)

/-- PgClassTable.get_data: the walk seeded at oid 10000, one ClassRow
per resolved table. -/
def pgClassGetData (cl : CatalogProviderList) : Except String (List ClassRow) :=
  match classCatalogsLoop cl cl.catalogNames 10000 with
  | .error e => .error e
  | .ok r => .ok (r.1.map fun e => mkClassRow e.tableOid e.tableName e.schemaOid e.table)

/-- A row of the pg_attribute relation (all columns pushed by
PgAttributeTable.get_data). -/
structure AttributeRow where
  attrelid : Int
  attname : String
  atttypid : Int
  attlen : Int
  attnum : Int
  attcacheoff : Int
  atttypmod : Int
  attndims : Int
  attbyval : Bool
  attalign : String
  attstorage : String
  attcompression : String
  attnotnull : Bool
  atthasdef : Bool
  atthasmissing : Bool
  attidentity : String
  attgenerated : String
  attisdropped : Bool
  attislocal : Bool
  attinhcount : Int
  attcollation : Int
  attacl : Option String
  attoptions : Option String
  attfdwoptions : Option String
  attmissingval : Option String
deriving DecidableEq, Repr

/-- Modelled from the spec: the per-column type mapper into_pg_type
lives in the datatypes module of this crate, which is not among the
provided source files.  The spec describes it as covering the types the
host engine supports and possibly having gaps; pg_attribute.get_data
substitutes the unknown-type sentinel when it yields nothing, so it is
modelled as an arbitrary partial map from native types to wire type
oids, passed to the attribute builder as a parameter. -/
def IntoPgType : Type := ArrowDataType → Option Int

/-- The oid of the unknown-type sentinel pgwire Type.UNKNOWN that the
attribute builder substitutes for an unmapped native type. -/
def unknownTypeOid : Int := 705

/-- The attlen value pg_attribute.get_data derives from a data type. -/
def attlenOf (dt : ArrowDataType) : Int :=
  match dt with
  | .int8 => 1
  | .int16 => 2
  | .int32 => 4
  | .int64 => 8
  | .float32 => 4
  | .float64 => 8
  | .boolean => 1
  | .date32 => 4
  | .date64 => 8
  | .timestamp => 8
  | .utf8 | .largeUtf8 => -1
  | _ => -1

/-- Structural array detection in pg_attribute.get_data: list,
large-list and fixed-size-list types. -/
def isArrayType (dt : ArrowDataType) : Bool :=
  match dt with
  | .list _ | .largeList _ | .fixedSizeList _ _ => true
  | _ => false

/-- The attbyval flag pg_attribute.get_data derives from a data type. -/
def attbyvalOf (dt : ArrowDataType) : Bool :=
  match dt with
  | .boolean | .int8 | .int16 | .int32 | .float32 | .date32 => true
  | _ => false

/-- The attalign class pg_attribute.get_data derives from a data type. -/
def attalignOf (dt : ArrowDataType) : String :=
  match dt with
  | .int8 | .boolean => "c"
  | .int16 => "s"
  | .int32 | .float32 | .date32 => "i"
  | .int64 | .float64 | .date64 | .timestamp => "d"
  | _ => "i"

/-- The attstorage class pg_attribute.get_data derives from a data
type. -/
def attstorageOf (dt : ArrowDataType) : String :=
  match dt with
  | .utf8 | .largeUtf8 | .binary | .largeBinary => "x"
  | _ => "p"

/-- The attribute row pg_attribute.get_data pushes for the column at
zero-based index columnIdx of the table with oid tableOid: type oid
from the mapper with the unknown sentinel as fallback, one-based
attnum, not-null as the negated nullability, remaining fields fixed. -/
def mkAttributeRow (intoPgType : IntoPgType) (tableOid : Int) (columnIdx : Nat)
    (field : ArrowField) : AttributeRow :=
  { attrelid := tableOid
    attname := field.name
    atttypid := (intoPgType field.dataType).getD unknownTypeOid
    attlen := attlenOf field.dataType
    attnum := ((columnIdx : Int) + 1)
    attcacheoff := -1
    atttypmod := -1
    attndims := if isArrayType field.dataType then 1 else 0
    attbyval := attbyvalOf field.dataType
    attalign := attalignOf field.dataType
    attstorage := attstorageOf field.dataType
    attcompression := ""
    attnotnull := !field.nullable
    atthasdef := false
    atthasmissing := false
    attidentity := ""
    attgenerated := ""
    attisdropped := false
    attislocal := true
    attinhcount := 0
    attcollation := 0
    attacl := none
    attoptions := none
    attfdwoptions := none
    attmissingval := none }

/-- The block of attribute rows one resolved table contributes: one row
per field of table.schema().fields(), enumerated in declared order. -/
def attributeRowsForTable (intoPgType : IntoPgType) (tableOid : Int)
    (table : TableProvider) : List AttributeRow :=
  table.fields.enum.map fun p => mkAttributeRow intoPgType tableOid p.1 p.2

/-- What the pg_attribute walk records for each resolved table: the oid
consumed for the table and its resolved provider (the schema oid is
bound but unused in the source). -/
structure AttrEntry where
  tableOid : Int
  table : TableProvider
deriving DecidableEq, Repr

/-- Innermost loop of PgAttributeTable.get_data over the table names of
one schema: identical oid consumption to the pg_class walk. -/
def attrTablesLoop (sp : UserSchemaProvider) (tableNames : List String)
    (nextOid : Int) : Except String (List AttrEntry × Int) :=
  match tableNames with
  | [] => .ok ([], nextOid)
  | t :: rest =>
    let tableOid := nextOid
    match sp.table t with
    | .error e => .error e
    | .ok none => attrTablesLoop sp rest (tableOid + 1)
    | .ok (some tbl) =>
      match attrTablesLoop sp rest (tableOid + 1) with
      | .error e => .error e
      | .ok r => .ok ({ tableOid := tableOid, table := tbl } :: r.1, r.2)

/-- Middle loop of PgAttributeTable.get_data over the schema names of
one catalog: a resolved schema consumes one oid (bound as _schema_oid)
before its tables are walked. -/
def attrSchemasLoop (cat : CatalogProvider) (schemaNames : List String)
    (nextOid : Int) : Except String (List AttrEntry × Int) :=
  match schemaNames with
  | [] => .ok ([], nextOid)
  | s :: rest =>
    match cat.schema s with
    | none => attrSchemasLoop cat rest nextOid
    | some sp =>
      match attrTablesLoop sp sp.tableNames (nextOid + 1) with
      | .error e => .error e
      | .ok r1 =>
        match attrSchemasLoop cat rest r1.2 with
        | .error e => .error e
        | .ok r2 => .ok (r1.1 ++ r2.1, r2.2)

/-- Outer loop of PgAttributeTable.get_data over catalog names. -/
def attrCatalogsLoop (cl : CatalogProviderList) (catalogNames : List String)
    (nextOid : Int) : Except String (List AttrEntry × Int) :=
  match catalogNames with
  | [] => .ok ([], nextOid)
  | c :: rest =>
    match cl.catalog c with
    | none => attrCatalogsLoop cl rest nextOid
    | some cat =>
      match attrSchemasLoop cat cat.schemaNames nextOid with
      | .error e => .error e
      | .ok r1 =>
        match attrCatalogsLoop cl rest r1.2 with
        | .error e => .error e
        | .ok r2 => .ok (r1.1 ++ r2.1, r2.2)

/-- PgAttributeTable.get_data: the walk seeded at oid 10000, one block
of attribute rows per resolved table. -/
def pgAttributeGetData (intoPgType : IntoPgType) (cl : CatalogProviderList) :
    Except String (List AttributeRow) :=
  match attrCatalogsLoop cl cl.catalogNames 10000 with
  | .error e => .error e
  | .ok r => .ok (r.1.flatMap fun e => attributeRowsForTable intoPgType e.tableOid e.table)

/-- The kinds of table the pg_catalog schema provider can hand out. -/
inductive PgCatalogTableKind where
  | pgType
  | pgClass
  | pgAttribute
  | pgNamespace
  | pgProc
  | pgDatabase
  | pgAm
deriving DecidableEq, Repr

/-- The PG_CATALOG_TABLES constant: the seven fixed table names. -/
def PG_CATALOG_TABLES : List String :=
  ["pg_type", "pg_class", "pg_attribute", "pg_namespace", "pg_proc",
   "pg_database", "pg_am"]

/-- Rust char::to_ascii_lowercase: map only A-Z to a-z. -/
def asciiLowerChar (c : Char) : Char :=
  if 65 ≤ c.toNat ∧ c.toNat ≤ 90 then Char.ofNat (c.toNat + 32) else c

/-- Rust str::to_ascii_lowercase applied characterwise. -/
def toAsciiLowercase (s : String) : String :=
  String.mk (s.data.map asciiLowerChar)

/-- PgCatalogSchemaProvider.table: match the ASCII-lowercased name
against the seven fixed names, yielding the corresponding provider;
any other name yields Ok(None), never an error. -/
def schemaProviderTable (name : String) : Except String (Option PgCatalogTableKind) :=
  if toAsciiLowercase name = "pg_type" then .ok (some .pgType)
  else if toAsciiLowercase name = "pg_am" then .ok (some .pgAm)
  else if toAsciiLowercase name = "pg_class" then .ok (some .pgClass)
  else if toAsciiLowercase name = "pg_namespace" then .ok (some .pgNamespace)
  else if toAsciiLowercase name = "pg_database" then .ok (some .pgDatabase)
  else if toAsciiLowercase name = "pg_attribute" then .ok (some .pgAttribute)
  else if toAsciiLowercase name = "pg_proc" then .ok (some .pgProc)
  else .ok none

/-- PgCatalogSchemaProvider.table_exist: membership of the
ASCII-lowercased name in PG_CATALOG_TABLES. -/
def schemaProviderTableExist (name : String) : Bool :=
  PG_CATALOG_TABLES.contains (toAsciiLowercase name)

/-- Decidable equality for Except values, used to evaluate builders on
concrete fixtures. -/
instance exceptDecEq {ε α : Type} [DecidableEq ε] [DecidableEq α] :
    DecidableEq (Except ε α) := fun x y =>
  match x, y with
  | .error a, .error b =>
    if h : a = b then .isTrue (by rw [h]) else .isFalse (by intro hc; cases hc; exact h rfl)
  | .ok a, .ok b =>
    if h : a = b then .isTrue (by rw [h]) else .isFalse (by intro hc; cases hc; exact h rfl)
  | .error _, .ok _ => .isFalse (by intro hc; cases hc)
  | .ok _, .error _ => .isFalse (by intro hc; cases hc)

/-! Concrete catalog fixtures used by counterexamples and witnesses. -/

/-- A table with no columns. -/
def tblNoCols : TableProvider := { fields := [] }

/-- A two-column table: a int32 not-null, b utf8 nullable. -/
def tblTwoCols : TableProvider :=
  { fields :=
      [ { name := "a", dataType := .int32, nullable := false },
        { name := "b", dataType := .utf8, nullable := true } ] }

/-- A schema holding exactly one resolvable table under the given name. -/
def spOneTable (tname : String) (tbl : TableProvider) : UserSchemaProvider :=
  { tableNames := [tname]
    table := fun n => if n = tname then .ok (some tbl) else .ok none }

/-- Fixture for the referential-match failing input: one catalog c with
schemas s1 (holding t1) and s2 (holding t2). -/
def clTwoSchemas : CatalogProviderList :=
  { catalogNames := ["c"]
    catalog := fun c =>
      if c = "c" then
        some
          { schemaNames := ["s1", "s2"]
            schema := fun s =>
              if s = "s1" then some (spOneTable "t1" tblNoCols)
              else if s = "s2" then some (spOneTable "t2" tblNoCols)
              else none }
      else none }

/-- Fixture for the system-schema exclusion counterexample: one catalog
whose only schema is named pg_catalog and holds one table t. -/
def clPgCatalogSchema : CatalogProviderList :=
  { catalogNames := ["c"]
    catalog := fun c =>
      if c = "c" then
        some
          { schemaNames := ["pg_catalog"]
            schema := fun s =>
              if s = "pg_catalog" then some (spOneTable "t" tblNoCols) else none }
      else none }

/-- The catalog of the vanished-schema fixture: schema s1 resolves and
holds t1; schema sgone is listed but its lookup returns none. -/
def catVanished : CatalogProvider :=
  { schemaNames := ["s1", "sgone"]
    schema := fun s => if s = "s1" then some (spOneTable "t1" tblNoCols) else none }

/-- Fixture for the vanished-schema counterexample. -/
def clVanishedSchema : CatalogProviderList :=
  { catalogNames := ["c"]
    catalog := fun c => if c = "c" then some catVanished else none }

/-- Small healthy fixture for witnesses: one catalog c, one schema s,
one table t with two columns. -/
def clSimple : CatalogProviderList :=
  { catalogNames := ["c"]
    catalog := fun c =>
      if c = "c" then
        some
          { schemaNames := ["s"]
            schema := fun s => if s = "s" then some (spOneTable "t" tblTwoCols) else none }
      else none }

/-- A type mapper with no mappings at all, for witnesses that exercise
the unknown-type fallback. -/
def emptyIntoPgType : IntoPgType := fun _ => none

/-- Projection from a pg_class walk entry to the data the pg_attribute
walk records for the same table. -/
def classEntryToAttr (e : ClassEntry) : AttrEntry :=
  { tableOid := e.tableOid, table := e.table }

/-- The schema names a walk visits, in traversal order: for each
catalog name, the schema listing of the resolved catalog (vanished
catalogs contribute nothing). -/
def listedSchemaNames (cl : CatalogProviderList) (catalogNames : List String) :
    List String :=
  catalogNames.flatMap fun c =>
    match cl.catalog c with
    | some cat => cat.schemaNames
    | none => []

example :
    (pgClassGetData clTwoSchemas).map
        (fun rows => rows.map fun r => (r.oid, r.relname, r.relnamespace)) =
      .ok [(10001, "t1", 10000), (10003, "t2", 10002)] := by decide

example :
    (pgNamespaceGetData clTwoSchemas).map (fun r => (r.oid, r.nspname)) =
      [(11, "pg_catalog"), (2200, "public"), (12, "information_schema"),
       (10000, "s1"), (10001, "s2")] := by decide

example :
    (pgClassGetData clPgCatalogSchema).map
        (fun rows => rows.map fun r => (r.oid, r.relname, r.relnamespace)) =
      .ok [(10001, "t", 10000)] := by decide

example :
    (pgClassGetData clVanishedSchema).map
        (fun rows => rows.map fun r => (r.oid, r.relname, r.relnamespace)) =
      .ok [(10001, "t1", 10000)] := by decide

example :
    (pgAttributeGetData emptyIntoPgType clSimple).map
        (fun rows => rows.map fun r => (r.attrelid, r.attname, r.atttypid, r.attnum)) =
      .ok [(10001, "a", 705, 1), (10001, "b", 705, 2)] := by decide

example :
    (pgDatabaseGetData clSimple).map (fun r => (r.oid, r.datname)) =
      [(16384, "c"), (16385, "postgres")] := by decide

example :
    (pgDatabaseGetData { catalogNames := [], catalog := fun _ => none }).map
        (fun r => (r.oid, r.datname)) = [(16384, "postgres")] := by decide


/-! Lemmas about the pg_namespace walk. -/

lemma namespaceSchemasLoop_spec (names : List String) :
    ∀ oid : Int,
      (namespaceSchemasLoop names oid).1.map (fun r => r.nspname) =
          names.filter (fun s => !isSystemSchemaName s) ∧
      (namespaceSchemasLoop names oid).1.map (fun r => r.oid) =
          (List.range (names.filter (fun s => !isSystemSchemaName s)).length).map
            (fun (k : Nat) => oid + (k : Int)) ∧
      (namespaceSchemasLoop names oid).2 =
          oid + ((names.filter (fun s => !isSystemSchemaName s)).length : Int) := by
  induction names with
  | nil => intro oid; simp [namespaceSchemasLoop]
  | cons s rest ih =>
    intro oid
    by_cases hs : isSystemSchemaName s
    · simpa [namespaceSchemasLoop, hs] using ih oid
    · obtain ⟨h1, h2, h3⟩ := ih (oid + 1)
      refine ⟨?_, ?_, ?_⟩
      · simp [namespaceSchemasLoop, hs, h1]
      · simp only [namespaceSchemasLoop, hs, Bool.false_eq_true, if_false,
          List.map_cons, h2, List.filter_cons, Bool.not_false, if_true,
          List.length_cons, List.range_succ_eq_map, List.map_map]
        refine List.cons_eq_cons.mpr ⟨by simp, List.map_congr_left ?_⟩
        intro k _
        simp only [Function.comp_apply]
        push_cast
        ring
      · simp only [namespaceSchemasLoop, hs, Bool.false_eq_true, if_false, h3,
          List.filter_cons, Bool.not_false, if_true, List.length_cons]
        push_cast
        ring

lemma namespaceCatalogsLoop_spec (cl : CatalogProviderList) (catalogNames : List String) :
    ∀ oid : Int,
      (namespaceCatalogsLoop cl catalogNames oid).1.map (fun r => r.nspname) =
          (listedSchemaNames cl catalogNames).filter (fun s => !isSystemSchemaName s) ∧
      (namespaceCatalogsLoop cl catalogNames oid).1.map (fun r => r.oid) =
          (List.range ((listedSchemaNames cl catalogNames).filter
              (fun s => !isSystemSchemaName s)).length).map
            (fun (k : Nat) => oid + (k : Int)) ∧
      (namespaceCatalogsLoop cl catalogNames oid).2 =
          oid + (((listedSchemaNames cl catalogNames).filter
              (fun s => !isSystemSchemaName s)).length : Int) := by
  induction catalogNames with
  | nil => intro oid; simp [namespaceCatalogsLoop, listedSchemaNames]
  | cons c rest ih =>
    intro oid
    cases hc : cl.catalog c with
    | none =>
      simpa [namespaceCatalogsLoop, hc, listedSchemaNames] using ih oid
    | some cat =>
      obtain ⟨g1, g2, g3⟩ := namespaceSchemasLoop_spec cat.schemaNames oid
      obtain ⟨h1, h2, h3⟩ := ih (oid +
        ((cat.schemaNames.filter (fun s => !isSystemSchemaName s)).length : Int))
      have hlist : listedSchemaNames cl (c :: rest) =
          cat.schemaNames ++ listedSchemaNames cl rest := by
        simp [listedSchemaNames, hc]
      refine ⟨?_, ?_, ?_⟩
      · simp only [namespaceCatalogsLoop, hc, List.map_append, g1]
        rw [g3, h1, hlist, List.filter_append]
      · simp only [namespaceCatalogsLoop, hc, List.map_append, g2]
        rw [g3, h2, hlist, List.filter_append, List.length_append, List.range_add,
          List.map_append, List.map_map]
        refine congrArg _ (List.map_congr_left ?_)
        intro k _
        simp only [Function.comp_apply]
        push_cast
        ring
      · simp only [namespaceCatalogsLoop, hc]
        rw [g3, h3, hlist, List.filter_append, List.length_append]
        push_cast
        ring

/-! Lemmas about the pg_database loop. -/

lemma databaseCatalogsLoop_spec (names : List String) :
    ∀ oid : Int,
      (databaseCatalogsLoop names oid).1.map (fun r => r.datname) = names ∧
      (databaseCatalogsLoop names oid).1.map (fun r => r.oid) =
          (List.range names.length).map (fun (k : Nat) => oid + (k : Int)) ∧
      (databaseCatalogsLoop names oid).2 = oid + (names.length : Int) := by
  induction names with
  | nil => intro oid; simp [databaseCatalogsLoop]
  | cons c rest ih =>
    intro oid
    obtain ⟨h1, h2, h3⟩ := ih (oid + 1)
    refine ⟨?_, ?_, ?_⟩
    · simp [databaseCatalogsLoop, mkDatabaseRow, h1]
    · simp only [databaseCatalogsLoop, List.map_cons, h2, List.length_cons,
        List.range_succ_eq_map, List.map_map]
      refine List.cons_eq_cons.mpr ⟨by simp [mkDatabaseRow], List.map_congr_left ?_⟩
      intro k _
      simp only [Function.comp_apply]
      push_cast
      ring
    · simp only [databaseCatalogsLoop, h3, List.length_cons]
      push_cast
      ring

/-! Claim theorems on the namespace, database and scalar-function side. -/

/-- C1: the referential-match property fails on the code.  At a catalog
with schemas s1 (holding t1) and s2 (holding t2), the pg_class walk
assigns relnamespace 10002 to the row for t2 (its counter also consumes
one oid per listed table), while an immediately preceding pg_namespace
fetch assigns oid 10001 to schema s2 (its counter only consumes oids
for non-system schemas).  This theorem evaluates both builders at that
input and exhibits the mismatch. -/
theorem pgClass_relnamespace_mismatches_pgNamespace_oid :
    (pgClassGetData clTwoSchemas).map
        (fun rows => rows.map fun r => (r.relname, r.relnamespace)) =
      .ok [("t1", (10000 : Int)), ("t2", (10002 : Int))] ∧
    (pgNamespaceGetData clTwoSchemas).map (fun r => (r.nspname, r.oid)) =
      [("pg_catalog", (11 : Int)), ("public", 2200), ("information_schema", 12),
       ("s1", 10000), ("s2", 10001)] ∧
    ((10002 : Int) ≠ 10001) :=
  ⟨by decide, by decide, by decide⟩

/-- C2 counterexample: the pg_class walk does not exclude system-named
schemas.  For a catalog whose only schema is named pg_catalog and holds
one table t, the pg_class fetch synthesizes a dynamic row for t and
consumes dynamic oids 10000 (schema) and 10001 (table). -/
theorem pgClass_walk_includes_system_named_schema :
    listedSchemaNames clPgCatalogSchema clPgCatalogSchema.catalogNames =
      ["pg_catalog"] ∧
    (pgClassGetData clPgCatalogSchema).map
        (fun rows => rows.map fun r => (r.oid, r.relname, r.relnamespace)) =
      .ok [((10001 : Int), "t", (10000 : Int))] :=
  ⟨by decide, by decide⟩

/-- C2 (amended): only the pg_namespace builder excludes the
introspection schema and the fixed system namespaces from its dynamic
walk: its dynamic rows are exactly the walked schema names with
pg_catalog, public and information_schema filtered out, and its counter
advances only for the kept schemas (no dynamic oid is consumed for an
excluded schema).  The pg_class and pg_attribute walks perform no such
exclusion (see the counterexample). -/
theorem pgNamespace_dynamic_walk_excludes_system_schemas (cl : CatalogProviderList) :
    (namespaceCatalogsLoop cl cl.catalogNames 10000).1.map (fun r => r.nspname) =
      (listedSchemaNames cl cl.catalogNames).filter (fun s => !isSystemSchemaName s) ∧
    (namespaceCatalogsLoop cl cl.catalogNames 10000).2 =
      10000 + (((listedSchemaNames cl cl.catalogNames).filter
          (fun s => !isSystemSchemaName s)).length : Int) := by
  obtain ⟨h1, -, h3⟩ := namespaceCatalogsLoop_spec cl cl.catalogNames 10000
  exact ⟨h1, h3⟩

/-- Witness for the amended C2 theorem at a concrete catalog whose only
schema is named pg_catalog: the dynamic namespace walk emits no row and
consumes no oid. -/
theorem pgNamespace_dynamic_walk_excludes_system_schemas_witness :
    (namespaceCatalogsLoop clPgCatalogSchema clPgCatalogSchema.catalogNames 10000).1.map
        (fun r => r.nspname) =
      (listedSchemaNames clPgCatalogSchema clPgCatalogSchema.catalogNames).filter
        (fun s => !isSystemSchemaName s) ∧
    (namespaceCatalogsLoop clPgCatalogSchema clPgCatalogSchema.catalogNames 10000).2 =
      10000 + (((listedSchemaNames clPgCatalogSchema clPgCatalogSchema.catalogNames).filter
          (fun s => !isSystemSchemaName s)).length : Int) :=
  pgNamespace_dynamic_walk_excludes_system_schemas clPgCatalogSchema

/-- C5: the pg_namespace relation opens with the three fixed system
rows (11 pg_catalog, 2200 public, 12 information_schema) before any
dynamic row, every dynamic oid is at least 10000, and all oids in the
relation are pairwise distinct. -/
theorem pgNamespace_fixed_rows_first_dynamic_oids_distinct (cl : CatalogProviderList) :
    ((pgNamespaceGetData cl).map (fun r => (r.oid, r.nspname))).take 3 =
      [((11 : Int), "pg_catalog"), ((2200 : Int), "public"),
       ((12 : Int), "information_schema")] ∧
    (∀ r ∈ (pgNamespaceGetData cl).drop 3, (10000 : Int) ≤ r.oid) ∧
    ((pgNamespaceGetData cl).map (fun r => r.oid)).Pairwise (fun a b => a ≠ b) := by
  obtain ⟨-, h2, -⟩ := namespaceCatalogsLoop_spec cl cl.catalogNames 10000
  refine ⟨?_, ?_, ?_⟩
  · simp [pgNamespaceGetData, fixedNamespaceRows]
  · intro r hr
    have hdrop : (pgNamespaceGetData cl).drop 3 =
        (namespaceCatalogsLoop cl cl.catalogNames 10000).1 := by
      simp [pgNamespaceGetData, fixedNamespaceRows]
    rw [hdrop] at hr
    have hm : r.oid ∈
        (namespaceCatalogsLoop cl cl.catalogNames 10000).1.map (fun r => r.oid) :=
      List.mem_map_of_mem _ hr
    rw [h2] at hm
    simp only [List.mem_map, List.mem_range] at hm
    obtain ⟨k, -, hk⟩ := hm
    omega
  · have hmap : (pgNamespaceGetData cl).map (fun r => r.oid) =
        [(11 : Int), 2200, 12] ++
          (namespaceCatalogsLoop cl cl.catalogNames 10000).1.map (fun r => r.oid) := by
      simp [pgNamespaceGetData, fixedNamespaceRows]
    rw [hmap, List.pairwise_append]
    refine ⟨by decide, ?_, ?_⟩
    · rw [h2]
      refine (List.pairwise_lt_range _).map _ ?_
      intro a b hab
      omega
    · intro a ha b hb
      rw [h2] at hb
      simp only [List.mem_map, List.mem_range] at hb
      obtain ⟨k, -, hk⟩ := hb
      fin_cases ha <;> omega

/-- Witness for the C5 theorem at a concrete one-schema catalog. -/
theorem pgNamespace_fixed_rows_first_dynamic_oids_distinct_witness :
    ((pgNamespaceGetData clSimple).map (fun r => (r.oid, r.nspname))).take 3 =
      [((11 : Int), "pg_catalog"), ((2200 : Int), "public"),
       ((12 : Int), "information_schema")] ∧
    (∀ r ∈ (pgNamespaceGetData clSimple).drop 3, (10000 : Int) ≤ r.oid) ∧
    ((pgNamespaceGetData clSimple).map (fun r => r.oid)).Pairwise (fun a b => a ≠ b) :=
  pgNamespace_fixed_rows_first_dynamic_oids_distinct clSimple

/-- C4: the pg_database relation holds one row per catalog, oids drawn
from a counter starting at 16384 in enumeration order (the synthetic
row, when present, continues the same counter), and exactly one extra
row named postgres is appended after all catalog rows precisely when no
catalog is named postgres; with zero catalogs the relation is exactly
one postgres row. -/
theorem pgDatabase_rows_catalogs_then_postgres (cl : CatalogProviderList) :
    (pgDatabaseGetData cl).map (fun r => r.datname) =
      cl.catalogNames ++
        (if "postgres" ∈ cl.catalogNames then [] else ["postgres"]) ∧
    (pgDatabaseGetData cl).map (fun r => r.oid) =
      (List.range (pgDatabaseGetData cl).length).map
        (fun (k : Nat) => (16384 : Int) + k) ∧
    (cl.catalogNames = [] →
      (pgDatabaseGetData cl).map (fun r => r.datname) = ["postgres"]) := by
  obtain ⟨h1, h2, h3⟩ := databaseCatalogsLoop_spec cl.catalogNames 16384
  have hlen : (databaseCatalogsLoop cl.catalogNames 16384).1.length =
      cl.catalogNames.length := by
    simpa using congrArg List.length h1
  have hcond :
      ((databaseCatalogsLoop cl.catalogNames 16384).1.map
          (fun row => row.datname)).contains "postgres" =
        decide ("postgres" ∈ cl.catalogNames) := by
    rw [h1]
    simp [List.contains]
  by_cases hmem : "postgres" ∈ cl.catalogNames
  · have hrows : pgDatabaseGetData cl = (databaseCatalogsLoop cl.catalogNames 16384).1 := by
      simp only [pgDatabaseGetData, hcond]
      simp [hmem]
    refine ⟨?_, ?_, ?_⟩
    · rw [hrows, h1, if_pos hmem, List.append_nil]
    · rw [hrows, h2, hlen]
    · intro hnil
      rw [hnil] at hmem
      exact absurd hmem (List.not_mem_nil _)
  · have hrows : pgDatabaseGetData cl =
        (databaseCatalogsLoop cl.catalogNames 16384).1 ++
          [mkDatabaseRow (databaseCatalogsLoop cl.catalogNames 16384).2 "postgres"] := by
      simp only [pgDatabaseGetData, hcond]
      simp [hmem]
    refine ⟨?_, ?_, ?_⟩
    · rw [hrows, List.map_append, h1, if_neg hmem]
      rfl
    · rw [hrows, List.map_append, h2, h3]
      have hlen2 : ((databaseCatalogsLoop cl.catalogNames 16384).1 ++
          [mkDatabaseRow (16384 + (cl.catalogNames.length : Int)) "postgres"]).length =
          cl.catalogNames.length + 1 := by
        simp [hlen]
      rw [hlen2, List.range_succ, List.map_append, List.map_singleton]
      rfl
    · intro hnil
      rw [hrows, List.map_append, h1, hnil]
      rfl

/-- Witness for the C4 theorem at the one-catalog fixture: the catalog
row gets oid 16384 and the synthetic postgres row follows it. -/
theorem pgDatabase_rows_catalogs_then_postgres_witness :
    (pgDatabaseGetData clSimple).map (fun r => r.datname) =
      clSimple.catalogNames ++
        (if "postgres" ∈ clSimple.catalogNames then [] else ["postgres"]) ∧
    (pgDatabaseGetData clSimple).map (fun r => r.oid) =
      (List.range (pgDatabaseGetData clSimple).length).map
        (fun (k : Nat) => (16384 : Int) + k) ∧
    (clSimple.catalogNames = [] →
      (pgDatabaseGetData clSimple).map (fun r => r.datname) = ["postgres"]) :=
  pgDatabase_rows_catalogs_then_postgres clSimple

/-- C8: current_schemas returns exactly the public singleton for false
and public, information_schema, pg_catalog in that order for true. -/
theorem currentSchemas_values :
    currentSchemas false = ["public"] ∧
    currentSchemas true = ["public", "information_schema", "pg_catalog"] :=
  ⟨by decide, by decide⟩

/-! Lemmas about the pg_attribute walk: counter bounds and strict
monotonicity of consumed table oids. -/

lemma attrTablesLoop_spec (sp : UserSchemaProvider) (tableNames : List String)
    (oid fin : Int) (ents : List AttrEntry)
    (h : attrTablesLoop sp tableNames oid = .ok (ents, fin)) :
    oid ≤ fin ∧ (∀ e ∈ ents, oid ≤ e.tableOid ∧ e.tableOid < fin) ∧
      ents.Pairwise (fun a b => a.tableOid < b.tableOid) := by
  induction tableNames generalizing oid ents fin with
  | nil =>
    simp only [attrTablesLoop, Except.ok.injEq, Prod.mk.injEq] at h
    obtain ⟨rfl, rfl⟩ := h
    exact ⟨le_refl _, by simp, by simp⟩
  | cons t rest ih =>
    simp only [attrTablesLoop] at h
    split at h
    · cases h
    · obtain ⟨hle, hb, hp⟩ := ih _ _ _ h
      refine ⟨by omega, fun e he => ⟨by have := (hb e he).1; omega, (hb e he).2⟩, hp⟩
    · split at h
      · cases h
      · rename_i tbl r hrec
        simp only [Except.ok.injEq, Prod.mk.injEq] at h
        obtain ⟨rfl, rfl⟩ := h
        obtain ⟨hle, hb, hp⟩ := ih _ _ _ hrec
        refine ⟨by omega, ?_, ?_⟩
        · intro e he
          rcases List.mem_cons.mp he with rfl | he'
          · exact ⟨le_refl _, by show oid < r.2; omega⟩
          · exact ⟨by have := (hb e he').1; omega, (hb e he').2⟩
        · refine List.pairwise_cons.mpr ⟨?_, hp⟩
          intro b hb'
          have := (hb b hb').1
          show oid < b.tableOid
          omega

lemma attrSchemasLoop_spec (cat : CatalogProvider) (schemaNames : List String)
    (oid fin : Int) (ents : List AttrEntry)
    (h : attrSchemasLoop cat schemaNames oid = .ok (ents, fin)) :
    oid ≤ fin ∧ (∀ e ∈ ents, oid ≤ e.tableOid ∧ e.tableOid < fin) ∧
      ents.Pairwise (fun a b => a.tableOid < b.tableOid) := by
  induction schemaNames generalizing oid ents fin with
  | nil =>
    simp only [attrSchemasLoop, Except.ok.injEq, Prod.mk.injEq] at h
    obtain ⟨rfl, rfl⟩ := h
    exact ⟨le_refl _, by simp, by simp⟩
  | cons s rest ih =>
    simp only [attrSchemasLoop] at h
    split at h
    · exact
        have ⟨hle, hb, hp⟩ := ih _ _ _ h
        ⟨hle, hb, hp⟩
    · split at h
      · cases h
      · rename_i sp r1 hrec1
        split at h
        · cases h
        · rename_i r2 hrec2
          simp only [Except.ok.injEq, Prod.mk.injEq] at h
          obtain ⟨rfl, rfl⟩ := h
          obtain ⟨hle1, hb1, hp1⟩ := attrTablesLoop_spec _ _ _ _ _ hrec1
          obtain ⟨hle2, hb2, hp2⟩ := ih _ _ _ hrec2
          refine ⟨by omega, ?_, ?_⟩
          · intro e he
            rcases List.mem_append.mp he with he' | he'
            · have := hb1 e he'
              constructor <;> omega
            · have := hb2 e he'
              constructor <;> omega
          · rw [List.pairwise_append]
            refine ⟨hp1, hp2, ?_⟩
            intro a ha b hb
            have h1 := (hb1 a ha).2
            have h2 := (hb2 b hb).1
            omega

lemma attrCatalogsLoop_spec (cl : CatalogProviderList) (catalogNames : List String)
    (oid fin : Int) (ents : List AttrEntry)
    (h : attrCatalogsLoop cl catalogNames oid = .ok (ents, fin)) :
    oid ≤ fin ∧ (∀ e ∈ ents, oid ≤ e.tableOid ∧ e.tableOid < fin) ∧
      ents.Pairwise (fun a b => a.tableOid < b.tableOid) := by
  induction catalogNames generalizing oid ents fin with
  | nil =>
    simp only [attrCatalogsLoop, Except.ok.injEq, Prod.mk.injEq] at h
    obtain ⟨rfl, rfl⟩ := h
    exact ⟨le_refl _, by simp, by simp⟩
  | cons c rest ih =>
    simp only [attrCatalogsLoop] at h
    split at h
    · exact ih _ _ _ h
    · split at h
      · cases h
      · rename_i cat r1 hrec1
        split at h
        · cases h
        · rename_i r2 hrec2
          simp only [Except.ok.injEq, Prod.mk.injEq] at h
          obtain ⟨rfl, rfl⟩ := h
          obtain ⟨hle1, hb1, hp1⟩ := attrSchemasLoop_spec _ _ _ _ _ hrec1
          obtain ⟨hle2, hb2, hp2⟩ := ih _ _ _ hrec2
          refine ⟨by omega, ?_, ?_⟩
          · intro e he
            rcases List.mem_append.mp he with he' | he'
            · have := hb1 e he'
              constructor <;> omega
            · have := hb2 e he'
              constructor <;> omega
          · rw [List.pairwise_append]
            refine ⟨hp1, hp2, ?_⟩
            intro a ha b hb
            have h1 := (hb1 a ha).2
            have h2 := (hb2 b hb).1
            omega

/-! Correspondence between the pg_class walk and the pg_attribute walk:
both consume oids with the identical scheme over the same traversal. -/

lemma classTablesLoop_toAttr (schemaOid : Int) (sp : UserSchemaProvider)
    (tableNames : List String) (oid : Int) :
    (classTablesLoop schemaOid sp tableNames oid).map
        (fun r => (r.1.map classEntryToAttr, r.2)) =
      attrTablesLoop sp tableNames oid := by
  induction tableNames generalizing oid with
  | nil => simp [classTablesLoop, attrTablesLoop, Except.map]
  | cons t rest ih =>
    simp only [classTablesLoop, attrTablesLoop]
    cases htab : sp.table t with
    | error e => simp [Except.map]
    | ok o =>
      cases o with
      | none => exact ih _
      | some tbl =>
        have ih' := ih (oid + 1)
        cases hrec : classTablesLoop schemaOid sp rest (oid + 1) with
        | error e =>
          rw [hrec] at ih'
          simp only [Except.map] at ih'
          rw [← ih']
          simp [Except.map]
        | ok r =>
          rw [hrec] at ih'
          simp only [Except.map] at ih'
          rw [← ih']
          simp [Except.map, classEntryToAttr]

lemma classSchemasLoop_toAttr (cat : CatalogProvider) (schemaNames : List String)
    (oid : Int) :
    (classSchemasLoop cat schemaNames oid).map
        (fun r => (r.1.map classEntryToAttr, r.2)) =
      attrSchemasLoop cat schemaNames oid := by
  induction schemaNames generalizing oid with
  | nil => simp [classSchemasLoop, attrSchemasLoop, Except.map]
  | cons s rest ih =>
    simp only [classSchemasLoop, attrSchemasLoop]
    cases hsch : cat.schema s with
    | none => exact ih _
    | some sp =>
      dsimp only
      rw [← classTablesLoop_toAttr oid sp sp.tableNames (oid + 1)]
      cases hrec1 : classTablesLoop oid sp sp.tableNames (oid + 1) with
      | error e => simp [Except.map]
      | ok r1 =>
        simp only [Except.map]
        rw [← ih r1.2]
        cases hrec2 : classSchemasLoop cat rest r1.2 with
        | error e => simp [Except.map]
        | ok r2 => simp [Except.map]

lemma classCatalogsLoop_toAttr (cl : CatalogProviderList) (catalogNames : List String)
    (oid : Int) :
    (classCatalogsLoop cl catalogNames oid).map
        (fun r => (r.1.map classEntryToAttr, r.2)) =
      attrCatalogsLoop cl catalogNames oid := by
  induction catalogNames generalizing oid with
  | nil => simp [classCatalogsLoop, attrCatalogsLoop, Except.map]
  | cons c rest ih =>
    simp only [classCatalogsLoop, attrCatalogsLoop]
    cases hcat : cl.catalog c with
    | none => exact ih _
    | some cat =>
      dsimp only
      rw [← classSchemasLoop_toAttr cat cat.schemaNames oid]
      cases hrec1 : classSchemasLoop cat cat.schemaNames oid with
      | error e => simp [Except.map]
      | ok r1 =>
        simp only [Except.map]
        rw [← ih r1.2]
        cases hrec2 : classCatalogsLoop cl rest r1.2 with
        | error e => simp [Except.map]
        | ok r2 => simp [Except.map]

/-! Lemmas about the per-table attribute row block. -/

lemma enumFrom_attr_block_attrelid (f : IntoPgType) (R : Int) :
    ∀ (l : List ArrowField) (n : Nat),
      ∀ r ∈ (l.enumFrom n).map (fun p => mkAttributeRow f R p.1 p.2),
        r.attrelid = R := by
  intro l
  induction l with
  | nil => intro n r hr; simp at hr
  | cons fld rest ih =>
    intro n r hr
    rw [List.enumFrom_cons, List.map_cons] at hr
    rcases List.mem_cons.mp hr with rfl | hr'
    · rfl
    · exact ih (n + 1) r hr'

lemma enumFrom_attr_block_attname (f : IntoPgType) (R : Int) :
    ∀ (l : List ArrowField) (n : Nat),
      ((l.enumFrom n).map (fun p => mkAttributeRow f R p.1 p.2)).map
          (fun r => r.attname) =
        l.map (fun fld => fld.name) := by
  intro l
  induction l with
  | nil => intro n; simp
  | cons fld rest ih =>
    intro n
    rw [List.enumFrom_cons, List.map_cons, List.map_cons, List.map_cons]
    exact congrArg _ (ih (n + 1))

lemma enumFrom_attr_block_attnum (f : IntoPgType) (R : Int) :
    ∀ (l : List ArrowField) (n : Nat),
      ((l.enumFrom n).map (fun p => mkAttributeRow f R p.1 p.2)).map
          (fun r => r.attnum) =
        (List.range l.length).map (fun (k : Nat) => ((n : Int) + k + 1)) := by
  intro l
  induction l with
  | nil => intro n; simp
  | cons fld rest ih =>
    intro n
    rw [List.enumFrom_cons, List.map_cons, List.map_cons, List.length_cons,
      List.range_succ_eq_map, List.map_cons]
    refine List.cons_eq_cons.mpr ⟨by simp [mkAttributeRow], ?_⟩
    rw [ih (n + 1), List.map_map]
    refine List.map_congr_left ?_
    intro k _
    simp only [Function.comp_apply]
    push_cast
    ring

lemma enumFrom_attr_block_length (f : IntoPgType) (R : Int)
    (l : List ArrowField) (n : Nat) :
    ((l.enumFrom n).map (fun p => mkAttributeRow f R p.1 p.2)).length = l.length := by
  rw [List.length_map, List.enumFrom_length]

lemma enumFrom_attr_block_mem (f : IntoPgType) (R : Int) :
    ∀ (l : List ArrowField) (n : Nat) (fld : ArrowField), fld ∈ l →
      ∃ r ∈ (l.enumFrom n).map (fun p => mkAttributeRow f R p.1 p.2),
        r.attrelid = R ∧ r.attname = fld.name ∧
          r.atttypid = (f fld.dataType).getD unknownTypeOid := by
  intro l
  induction l with
  | nil => intro n fld hf; cases hf
  | cons a rest ih =>
    intro n fld hf
    rw [List.enumFrom_cons, List.map_cons]
    rcases List.mem_cons.mp hf with rfl | hf'
    · exact ⟨mkAttributeRow f R n fld, List.mem_cons_self _ _, rfl, rfl, rfl⟩
    · obtain ⟨r, hr, hprops⟩ := ih (n + 1) fld hf'
      exact ⟨r, List.mem_cons_of_mem _ hr, hprops⟩

lemma attributeRowsForTable_eq_enumFrom (f : IntoPgType) (R : Int)
    (t : TableProvider) :
    attributeRowsForTable f R t =
      (t.fields.enumFrom 0).map (fun p => mkAttributeRow f R p.1 p.2) := rfl

lemma attributeRowsForTable_attrelid (f : IntoPgType) (R : Int) (t : TableProvider)
    (r : AttributeRow) (hr : r ∈ attributeRowsForTable f R t) : r.attrelid = R :=
  enumFrom_attr_block_attrelid f R t.fields 0 r
    (by rwa [attributeRowsForTable_eq_enumFrom] at hr)

lemma attributeRowsForTable_attnum (f : IntoPgType) (R : Int) (t : TableProvider) :
    (attributeRowsForTable f R t).map (fun r => r.attnum) =
      (List.range t.fields.length).map (fun (k : Nat) => (k : Int) + 1) := by
  rw [attributeRowsForTable_eq_enumFrom, enumFrom_attr_block_attnum]
  refine List.map_congr_left ?_
  intro k _
  push_cast
  ring

lemma attributeRowsForTable_attname (f : IntoPgType) (R : Int) (t : TableProvider) :
    (attributeRowsForTable f R t).map (fun r => r.attname) =
      t.fields.map (fun fld => fld.name) := by
  rw [attributeRowsForTable_eq_enumFrom, enumFrom_attr_block_attname]

lemma attributeRowsForTable_length (f : IntoPgType) (R : Int) (t : TableProvider) :
    (attributeRowsForTable f R t).length = t.fields.length := by
  rw [attributeRowsForTable_eq_enumFrom, enumFrom_attr_block_length]

/-- Collapsing the relation-wide filter by attrelid to one table block,
given the strict monotonicity of the consumed table oids. -/
lemma flatMap_filter_eq_block (f : IntoPgType) :
    ∀ (ents : List AttrEntry),
      ents.Pairwise (fun a b => a.tableOid < b.tableOid) →
      ∀ e ∈ ents,
        (ents.flatMap (fun x => attributeRowsForTable f x.tableOid x.table)).filter
            (fun r => decide (r.attrelid = e.tableOid)) =
          attributeRowsForTable f e.tableOid e.table := by
  intro ents
  induction ents with
  | nil => intro _ e he; cases he
  | cons x rest ih =>
    intro hp e he
    obtain ⟨hx, hrest⟩ := List.pairwise_cons.mp hp
    rw [List.flatMap_cons, List.filter_append]
    rcases List.mem_cons.mp he with rfl | he'
    · have hall : (attributeRowsForTable f e.tableOid e.table).filter
          (fun r => decide (r.attrelid = e.tableOid)) =
            attributeRowsForTable f e.tableOid e.table := by
        apply List.filter_eq_self.mpr
        intro r hr
        simp [attributeRowsForTable_attrelid f _ _ r hr]
      have hnil : ((rest.flatMap
            (fun x => attributeRowsForTable f x.tableOid x.table)).filter
          (fun r => decide (r.attrelid = e.tableOid))) = [] := by
        apply List.filter_eq_nil_iff.mpr
        intro r hr
        obtain ⟨y, hy, hry⟩ := List.mem_flatMap.mp hr
        have h1 : r.attrelid = y.tableOid := attributeRowsForTable_attrelid f _ _ r hry
        have h2 : e.tableOid < y.tableOid := hx y hy
        simp only [h1, decide_eq_true_eq]
        omega
      rw [hall, hnil, List.append_nil]
    · have hnil : (attributeRowsForTable f x.tableOid x.table).filter
          (fun r => decide (r.attrelid = e.tableOid)) = [] := by
        apply List.filter_eq_nil_iff.mpr
        intro r hr
        have h1 : r.attrelid = x.tableOid := attributeRowsForTable_attrelid f _ _ r hr
        have h2 : x.tableOid < e.tableOid := hx e he'
        simp only [h1, decide_eq_true_eq]
        omega
      rw [hnil, List.nil_append, ih hrest e he']

/-! Claim theorems on the pg_class and pg_attribute side. -/

/-- C3: for every table the walk resolves, the pg_attribute fetch
yields exactly one block of rows carrying that table's oid: filtering
the relation by that oid returns the per-table block, whose length is
the declared column count, whose attnum values are exactly 1..N in
order, and whose names follow the declared column order. -/
theorem pgAttribute_rows_per_table_complete_ordered
    (cl : CatalogProviderList) (f : IntoPgType)
    (ents : List AttrEntry) (fin : Int) (rows : List AttributeRow) (e : AttrEntry)
    (hwalk : attrCatalogsLoop cl cl.catalogNames 10000 = .ok (ents, fin))
    (hrows : pgAttributeGetData f cl = .ok rows)
    (he : e ∈ ents) :
    rows.filter (fun r => decide (r.attrelid = e.tableOid)) =
        attributeRowsForTable f e.tableOid e.table ∧
    (rows.filter (fun r => decide (r.attrelid = e.tableOid))).length =
        e.table.fields.length ∧
    (rows.filter (fun r => decide (r.attrelid = e.tableOid))).map (fun r => r.attnum) =
        (List.range e.table.fields.length).map (fun (k : Nat) => (k : Int) + 1) ∧
    (rows.filter (fun r => decide (r.attrelid = e.tableOid))).map (fun r => r.attname) =
        e.table.fields.map (fun fld => fld.name) := by
  simp only [pgAttributeGetData, hwalk, Except.ok.injEq] at hrows
  subst hrows
  obtain ⟨-, -, hp⟩ := attrCatalogsLoop_spec cl cl.catalogNames 10000 fin ents hwalk
  have hfilter := flatMap_filter_eq_block f ents hp e he
  refine ⟨hfilter, ?_, ?_, ?_⟩
  · rw [hfilter, attributeRowsForTable_length]
  · rw [hfilter, attributeRowsForTable_attnum]
  · rw [hfilter, attributeRowsForTable_attname]

/-- Witness for the C3 theorem at the two-column fixture table. -/
theorem pgAttribute_rows_per_table_complete_ordered_witness :
    ((attributeRowsForTable emptyIntoPgType 10001 tblTwoCols).filter
        (fun r => decide (r.attrelid = (10001 : Int))) =
      attributeRowsForTable emptyIntoPgType 10001 tblTwoCols) ∧
    (((attributeRowsForTable emptyIntoPgType 10001 tblTwoCols).filter
        (fun r => decide (r.attrelid = (10001 : Int)))).length =
      tblTwoCols.fields.length) ∧
    (((attributeRowsForTable emptyIntoPgType 10001 tblTwoCols).filter
        (fun r => decide (r.attrelid = (10001 : Int)))).map (fun r => r.attnum) =
      (List.range tblTwoCols.fields.length).map (fun (k : Nat) => (k : Int) + 1)) ∧
    (((attributeRowsForTable emptyIntoPgType 10001 tblTwoCols).filter
        (fun r => decide (r.attrelid = (10001 : Int)))).map (fun r => r.attname) =
      tblTwoCols.fields.map (fun fld => fld.name)) :=
  pgAttribute_rows_per_table_complete_ordered clSimple emptyIntoPgType
    [{ tableOid := 10001, table := tblTwoCols }] 10002
    (attributeRowsForTable emptyIntoPgType 10001 tblTwoCols)
    { tableOid := 10001, table := tblTwoCols }
    (by decide) (by decide) (List.mem_singleton.mpr rfl)

/-- C7: the attribute builder never fails because of a type-mapping
gap: whenever the walk succeeds the fetch succeeds (for any mapper),
the relation is complete (one row per column of every resolved table),
and a column whose native type has no mapping still gets its row, with
the unknown-type sentinel oid as its type. -/
theorem pgAttribute_unmapped_type_uses_unknown_sentinel
    (cl : CatalogProviderList) (f : IntoPgType) (ents : List AttrEntry) (fin : Int)
    (hwalk : attrCatalogsLoop cl cl.catalogNames 10000 = .ok (ents, fin)) :
    ∃ rows, pgAttributeGetData f cl = .ok rows ∧
      rows.length = (ents.map (fun e => e.table.fields.length)).sum ∧
      ∀ e ∈ ents, ∀ fld ∈ e.table.fields, f fld.dataType = none →
        ∃ r ∈ rows, r.attrelid = e.tableOid ∧ r.attname = fld.name ∧
          r.atttypid = unknownTypeOid := by
  refine ⟨ents.flatMap (fun x => attributeRowsForTable f x.tableOid x.table),
    by simp [pgAttributeGetData, hwalk], ?_, ?_⟩
  · rw [List.flatMap_def, List.length_flatten, List.map_map]
    congr 1
    refine List.map_congr_left ?_
    intro x _
    simp only [Function.comp_apply]
    exact attributeRowsForTable_length f x.tableOid x.table
  · intro e he fld hfld hnone
    obtain ⟨r, hr, h1, h2, h3⟩ :=
      enumFrom_attr_block_mem f e.tableOid e.table.fields 0 fld hfld
    refine ⟨r, List.mem_flatMap_of_mem he ?_, h1, h2, ?_⟩
    · rwa [attributeRowsForTable_eq_enumFrom]
    · rw [h3, hnone]
      rfl

/-- Witness for the C7 theorem: with the everywhere-undefined mapper,
the two-column fixture still yields both rows, typed as unknown. -/
theorem pgAttribute_unmapped_type_uses_unknown_sentinel_witness :
    ∃ rows, pgAttributeGetData emptyIntoPgType clSimple = .ok rows ∧
      rows.length = (([{ tableOid := (10001 : Int), table := tblTwoCols }] :
          List AttrEntry).map (fun e => e.table.fields.length)).sum ∧
      ∀ e ∈ ([{ tableOid := (10001 : Int), table := tblTwoCols }] : List AttrEntry),
        ∀ fld ∈ e.table.fields, emptyIntoPgType fld.dataType = none →
          ∃ r ∈ rows, r.attrelid = e.tableOid ∧ r.attname = fld.name ∧
            r.atttypid = unknownTypeOid :=
  pgAttribute_unmapped_type_uses_unknown_sentinel clSimple emptyIntoPgType
    [{ tableOid := 10001, table := tblTwoCols }] 10002 (by decide)

/-- C9: the pg_class and pg_attribute walks assign table oids by the
identical counting scheme over the same traversal: projecting the
pg_class walk onto (table oid, table) yields the pg_attribute walk
exactly, and consequently, for an unmutated catalog, every attribute
row's attrelid is the oid of a pg_class row (the one synthesized for
the same table). -/
theorem pgAttribute_attrelid_matches_pgClass_oid
    (cl : CatalogProviderList) (f : IntoPgType) :
    (classCatalogsLoop cl cl.catalogNames 10000).map
        (fun r => (r.1.map classEntryToAttr, r.2)) =
      attrCatalogsLoop cl cl.catalogNames 10000 ∧
    ∀ (crows : List ClassRow) (arows : List AttributeRow),
      pgClassGetData cl = .ok crows → pgAttributeGetData f cl = .ok arows →
      ∀ r ∈ arows, ∃ c ∈ crows, c.oid = r.attrelid := by
  refine ⟨classCatalogsLoop_toAttr cl cl.catalogNames 10000, ?_⟩
  intro crows arows hc ha r hr
  cases hwalk : classCatalogsLoop cl cl.catalogNames 10000 with
  | error e => simp [pgClassGetData, hwalk] at hc
  | ok rc =>
    have hattr : attrCatalogsLoop cl cl.catalogNames 10000 =
        .ok (rc.1.map classEntryToAttr, rc.2) := by
      rw [← classCatalogsLoop_toAttr, hwalk]
      rfl
    simp only [pgClassGetData, hwalk, Except.ok.injEq] at hc
    simp only [pgAttributeGetData, hattr, Except.ok.injEq] at ha
    subst hc ha
    obtain ⟨ae, hae, hrae⟩ := List.mem_flatMap.mp hr
    have hrel : r.attrelid = ae.tableOid :=
      attributeRowsForTable_attrelid f _ _ r hrae
    obtain ⟨ce, hce, rfl⟩ := List.mem_map.mp hae
    refine ⟨mkClassRow ce.tableOid ce.tableName ce.schemaOid ce.table,
      List.mem_map_of_mem _ hce, ?_⟩
    rw [hrel]
    rfl

/-- Witness for the C9 theorem at the two-column fixture. -/
theorem pgAttribute_attrelid_matches_pgClass_oid_witness :
    (classCatalogsLoop clSimple clSimple.catalogNames 10000).map
        (fun r => (r.1.map classEntryToAttr, r.2)) =
      attrCatalogsLoop clSimple clSimple.catalogNames 10000 ∧
    ∀ (crows : List ClassRow) (arows : List AttributeRow),
      pgClassGetData clSimple = .ok crows →
      pgAttributeGetData emptyIntoPgType clSimple = .ok arows →
      ∀ r ∈ arows, ∃ c ∈ crows, c.oid = r.attrelid :=
  pgAttribute_attrelid_matches_pgClass_oid clSimple emptyIntoPgType

/-! Lemmas for error propagation in the pg_class walk. -/

lemma classTablesLoop_lookups (schemaOid : Int) (sp : UserSchemaProvider)
    (tableNames : List String) (oid fin : Int) (ents : List ClassEntry)
    (h : classTablesLoop schemaOid sp tableNames oid = .ok (ents, fin)) :
    ∀ t ∈ tableNames, ∃ v, sp.table t = .ok v := by
  induction tableNames generalizing oid ents fin with
  | nil => intro t ht; cases ht
  | cons t0 rest ih =>
    simp only [classTablesLoop] at h
    split at h
    · cases h
    · rename_i heq
      intro t ht
      rcases List.mem_cons.mp ht with rfl | ht'
      · exact ⟨none, heq⟩
      · exact ih _ _ _ h t ht'
    · rename_i tbl heq
      split at h
      · cases h
      · rename_i r hrec
        intro t ht
        rcases List.mem_cons.mp ht with rfl | ht'
        · exact ⟨some tbl, heq⟩
        · exact ih _ _ _ hrec t ht'

lemma classSchemasLoop_lookups (cat : CatalogProvider)
    (schemaNames : List String) (oid fin : Int) (ents : List ClassEntry)
    (h : classSchemasLoop cat schemaNames oid = .ok (ents, fin)) :
    ∀ s ∈ schemaNames, ∀ sp, cat.schema s = some sp →
      ∀ t ∈ sp.tableNames, ∃ v, sp.table t = .ok v := by
  induction schemaNames generalizing oid ents fin with
  | nil => intro s hs; cases hs
  | cons s0 rest ih =>
    simp only [classSchemasLoop] at h
    split at h
    · rename_i heq
      intro s hs sp hsp
      rcases List.mem_cons.mp hs with rfl | hs'
      · rw [heq] at hsp
        cases hsp
      · exact ih _ _ _ h s hs' sp hsp
    · rename_i sp0 heq
      split at h
      · cases h
      · rename_i r1 hrec1
        split at h
        · cases h
        · rename_i r2 hrec2
          intro s hs sp hsp
          rcases List.mem_cons.mp hs with rfl | hs'
          · rw [heq] at hsp
            cases hsp
            exact classTablesLoop_lookups _ _ _ _ _ _ hrec1
          · exact ih _ _ _ hrec2 s hs' sp hsp

lemma classCatalogsLoop_lookups (cl : CatalogProviderList)
    (catalogNames : List String) (oid fin : Int) (ents : List ClassEntry)
    (h : classCatalogsLoop cl catalogNames oid = .ok (ents, fin)) :
    ∀ c ∈ catalogNames, ∀ cat, cl.catalog c = some cat →
      ∀ s ∈ cat.schemaNames, ∀ sp, cat.schema s = some sp →
        ∀ t ∈ sp.tableNames, ∃ v, sp.table t = .ok v := by
  induction catalogNames generalizing oid ents fin with
  | nil => intro c hc; cases hc
  | cons c0 rest ih =>
    simp only [classCatalogsLoop] at h
    split at h
    · rename_i heq
      intro c hc cat hcat
      rcases List.mem_cons.mp hc with rfl | hc'
      · rw [heq] at hcat
        cases hcat
      · exact ih _ _ _ h c hc' cat hcat
    · rename_i cat0 heq
      split at h
      · cases h
      · rename_i r1 hrec1
        split at h
        · cases h
        · rename_i r2 hrec2
          intro c hc cat hcat
          rcases List.mem_cons.mp hc with rfl | hc'
          · rw [heq] at hcat
            cases hcat
            exact classSchemasLoop_lookups _ _ _ _ _ hrec1
          · exact ih _ _ _ hrec2 c hc' cat hcat

/-- C6 counterexample: a schema that vanishes between being listed and
being resolved does not abort the fetch.  In the fixture, sgone is
listed by the catalog but its lookup returns none, yet pg_class
delivers a relation holding the row built from the traversal prefix
(schema s1, table t1). -/
theorem pgClass_walk_skips_vanished_schema :
    clVanishedSchema.catalog "c" = some catVanished ∧
    catVanished.schemaNames = ["s1", "sgone"] ∧
    catVanished.schema "sgone" = none ∧
    (pgClassGetData clVanishedSchema).map
        (fun rows => rows.map fun r => (r.oid, r.relname, r.relnamespace)) =
      .ok [((10001 : Int), "t1", (10000 : Int))] :=
  ⟨rfl, rfl, rfl, by decide⟩

/-- C6 (amended): only an erroring table lookup aborts the fetch: if
the pg_class fetch succeeds, every table lookup reachable through the
listed and resolvable catalogs and schemas returned Ok (so an error in
any of them forces the whole fetch to return the error, and the Except
result then carries no rows); lookups that merely find the object
gone (a none schema or Ok-none table) are skipped silently. -/
theorem pgClass_ok_implies_all_table_lookups_ok (cl : CatalogProviderList)
    (rows : List ClassRow) (h : pgClassGetData cl = .ok rows) :
    ∀ c ∈ cl.catalogNames, ∀ cat, cl.catalog c = some cat →
      ∀ s ∈ cat.schemaNames, ∀ sp, cat.schema s = some sp →
        ∀ t ∈ sp.tableNames, ∃ v, sp.table t = .ok v := by
  cases hwalk : classCatalogsLoop cl cl.catalogNames 10000 with
  | error e => simp [pgClassGetData, hwalk] at h
  | ok r =>
    exact classCatalogsLoop_lookups cl cl.catalogNames 10000 r.2 r.1 (by rw [hwalk])

/-- Witness for the amended C6 theorem: at the healthy fixture, the
successful fetch certifies that the lookup of table t returned Ok. -/
theorem pgClass_ok_implies_all_table_lookups_ok_witness :
    ∃ v, (spOneTable "t" tblTwoCols).table "t" = .ok v := by
  have h := pgClass_ok_implies_all_table_lookups_ok clSimple
    [mkClassRow 10001 "t" 10000 tblTwoCols] (by rfl)
  exact h "c" (by decide) _ rfl "s" (by decide) _ rfl "t" (by decide)

/-- C10: the pg_catalog schema provider resolves table names
ASCII-case-insensitively: the lookup returns a provider exactly when
the ASCII-lowercased name is one of the seven fixed pg_catalog table
names, table_exist agrees with the lookup, and any other name yields
Ok none rather than an error. -/
theorem pgCatalog_provider_lookup_case_insensitive (name : String) :
    (schemaProviderTableExist name = true ↔
        toAsciiLowercase name ∈ PG_CATALOG_TABLES) ∧
    ((∃ k, schemaProviderTable name = .ok (some k)) ↔
        schemaProviderTableExist name = true) ∧
    (schemaProviderTableExist name = false →
        schemaProviderTable name = .ok none) := by
  have hmain :
      (schemaProviderTable name = .ok none ∧ schemaProviderTableExist name = false) ∨
      ((∃ k, schemaProviderTable name = .ok (some k)) ∧
        schemaProviderTableExist name = true) := by
    unfold schemaProviderTable schemaProviderTableExist PG_CATALOG_TABLES
    split_ifs with h1 h2 h3 h4 h5 h6 h7
    · exact Or.inr ⟨⟨.pgType, rfl⟩, by rw [h1]; decide⟩
    · exact Or.inr ⟨⟨.pgAm, rfl⟩, by rw [h2]; decide⟩
    · exact Or.inr ⟨⟨.pgClass, rfl⟩, by rw [h3]; decide⟩
    · exact Or.inr ⟨⟨.pgNamespace, rfl⟩, by rw [h4]; decide⟩
    · exact Or.inr ⟨⟨.pgDatabase, rfl⟩, by rw [h5]; decide⟩
    · exact Or.inr ⟨⟨.pgAttribute, rfl⟩, by rw [h6]; decide⟩
    · exact Or.inr ⟨⟨.pgProc, rfl⟩, by rw [h7]; decide⟩
    · refine Or.inl ⟨rfl, ?_⟩
      simp only [List.contains, List.elem_eq_mem, decide_eq_false_iff_not,
        List.mem_cons, List.not_mem_nil]
      push_neg
      exact ⟨h1, h3, h6, h4, h7, h5, h2, fun hfalse => hfalse⟩
  refine ⟨?_, ?_, ?_⟩
  · simp [schemaProviderTableExist, List.contains]
  · constructor
    · rintro ⟨k, hk⟩
      rcases hmain with ⟨hnone, -⟩ | ⟨-, htrue⟩
      · rw [hnone] at hk
        cases hk
      · exact htrue
    · intro htrue
      rcases hmain with ⟨-, hfalse⟩ | ⟨hex, -⟩
      · rw [htrue] at hfalse
        cases hfalse
      · exact hex
  · intro hfalse
    rcases hmain with ⟨hnone, -⟩ | ⟨-, htrue⟩
    · exact hnone
    · rw [htrue] at hfalse
      cases hfalse

/-- Witness for the C10 theorem at a mixed-case name: PG_Class
lowercases to pg_class, so the lookup resolves it. -/
theorem pgCatalog_provider_lookup_case_insensitive_witness :
    (schemaProviderTableExist "PG_Class" = true ↔
        toAsciiLowercase "PG_Class" ∈ PG_CATALOG_TABLES) ∧
    ((∃ k, schemaProviderTable "PG_Class" = .ok (some k)) ↔
        schemaProviderTableExist "PG_Class" = true) ∧
    (schemaProviderTableExist "PG_Class" = false →
        schemaProviderTable "PG_Class" = .ok none) :=
  pgCatalog_provider_lookup_case_insensitive "PG_Class"
